import Mathlib

/-!
Verification development for the command dispatch & invocation framework of
`reminder-rs` (`src/framework.rs`, `src/main.rs`).

The Rust code is shallowly embedded: each definition below is a direct
translation of the named source item.  Platform I/O (Discord HTTP calls) is
represented by an explicit list of emitted `PlatformCall`s together with a
boolean oracle saying whether the underlying call succeeds; `unwrap`/`expect`
panics are represented by explicit `panicked` / `Except.error` outcomes.
-/

namespace Reminder

/-! ### Invocation handle (`CommandInvoke`, framework.rs lines 88-263)

`InvokeModel` distinguishes a slash-command trigger from a message-component
trigger.  The handle carries the two mutable response-state flags
`already_responded` and `deferred` exactly as in the Rust struct.  The spec's
states are: Fresh = both flags false, Deferred = `deferred` set,
Responded = `already_responded` set. -/

inductive InvokeModelK where
  | slash
  | component
deriving DecidableEq, Repr

structure CommandInvoke where
  model : InvokeModelK
  already_responded : Bool
  deferred : Bool
deriving DecidableEq, Repr

/-- Kinds of interaction response used by the code
(`InteractionResponseType::…`). -/
inductive ResponseKind where
  | channelMessageWithSource
  | deferredChannelMessageWithSource
  | updateMessage
deriving DecidableEq, Repr

/-- The outbound platform calls the handle can make
(`create_interaction_response`, `edit_original_interaction_response`,
`create_followup_message`). -/
inductive PlatformCall where
  | createInteractionResponse (kind : ResponseKind)
  | editOriginalResponse
  | createFollowupMessage
deriving DecidableEq, Repr

/-- Result of a fallible serenity call, `SerenityResult<()>` with the error
payload abstracted. -/
inductive MResult where
  | ok
  | err
deriving DecidableEq, Repr

/-- Outcome of `CommandInvoke::defer`: the Rust method returns `()` and
`unwrap`s the platform call, so a failed call panics. -/
inductive DeferOutcome where
  | ok (state : CommandInvoke) (calls : List PlatformCall)
  | panicked (calls : List PlatformCall)
deriving DecidableEq, Repr

/-- `CommandInvoke::defer` (framework.rs lines 110-133).  Both the slash and
the component arm send a `DeferredChannelMessageWithSource` interaction
response and set `deferred`, guarded only by `if !self.deferred`.  The call's
result is `unwrap`ped: `success = false` models a failed platform call, which
panics before the flag is set. -/
def CommandInvoke.defer (inv : CommandInvoke) (success : Bool) : DeferOutcome :=
  if inv.deferred then
    .ok inv []
  else
    if success then
      .ok { inv with deferred := true }
        [.createInteractionResponse .deferredChannelMessageWithSource]
    else
      .panicked [.createInteractionResponse .deferredChannelMessageWithSource]

/-- The single platform call `CommandInvoke::respond` makes, selected by the
match on `self.model` and the `already_responded` / `deferred` flags
(framework.rs lines 172-257).  The component arm makes an `UpdateMessage`
interaction response unconditionally. -/
def CommandInvoke.respondCall (inv : CommandInvoke) : PlatformCall :=
  match inv.model with
  | .slash =>
    if inv.already_responded then
      .createFollowupMessage
    else if inv.deferred then
      .editOriginalResponse
    else
      .createInteractionResponse .channelMessageWithSource
  | .component => .createInteractionResponse .updateMessage

structure RespondOutcome where
  result : MResult
  state : CommandInvoke
  calls : List PlatformCall
deriving DecidableEq, Repr

/-- `CommandInvoke::respond` (framework.rs lines 167-262).  The selected call
is made; on failure the `?` operator returns the error before
`self.already_responded = true` runs, so the flags are unchanged.  On success
`already_responded` is set (in every arm, component included). -/
def CommandInvoke.respond (inv : CommandInvoke) (success : Bool) : RespondOutcome :=
  let c := inv.respondCall
  if success then
    { result := .ok, state := { inv with already_responded := true }, calls := [c] }
  else
    { result := .err, state := inv, calls := [c] }

/-- A fresh slash-trigger handle (`CommandInvoke::slash`). -/
def freshSlash : CommandInvoke :=
  { model := .slash, already_responded := false, deferred := false }

/-- A fresh component handle (`CommandInvoke::component`). -/
def freshComponent : CommandInvoke :=
  { model := .component, already_responded := false, deferred := false }

inductive HandleOp where
  | deferOp
  | respondOp
deriving DecidableEq, Repr

/-- Run a sequence of `defer`/`respond` operations on a handle, with every
underlying platform call succeeding, collecting the emitted calls in order. -/
def runOps (inv : CommandInvoke) (ops : List HandleOp) :
    CommandInvoke × List PlatformCall :=
  match ops with
  | [] => (inv, [])
  | op :: rest =>
    let (s, cs) :=
      match op with
      | .deferOp =>
        match inv.defer true with
        | .ok s cs => (s, cs)
        | .panicked cs => (inv, cs)
      | .respondOp =>
        let r := inv.respond true
        (r.state, r.calls)
    let (s', cs') := runOps s rest
    (s', cs ++ cs')

/-- Observable shape of a `defer` outcome ignoring which trigger variant the
handle wraps: the flag pair after the call (`none` if it panicked) and the
emitted calls. -/
def deferFlags (o : DeferOutcome) : Option (Bool × Bool) × List PlatformCall :=
  match o with
  | .ok s cs => (some (s.already_responded, s.deferred), cs)
  | .panicked cs => (none, cs)

/-! ### Compiled text matcher (`RegexFramework::build`, framework.rs lines 593-653)

The guild pattern is
`^(?:(?:<@ID>\s*)|(?:<@!ID>\s*)|(?P<prefix>\S\x7b1,5\x7d?))(?P<cmd>COMMANDS)(?:$|\s+(?P<args>.*))$`
where `COMMANDS` is the `|`-join of the registered names after
`sort_unstable_by_key(|a| a.len())` (ascending length).  Strings are embedded
as `List Char`.  The `regex` crate has leftmost-first (backtracking-preference)
match semantics: alternatives are tried left to right and an alternative that
cannot complete the rest of the pattern is abandoned in favour of the next
one.  `matchCmd` embeds the `(?P<cmd>…)(?:$|\s+(?P<args>.*))$` part exactly
that way; the front alternation (two mention forms with greedy `\s*`, then the
lazy 1-5 character prefix) is embedded as an ordered list of candidate
remainders.  The `case_insensitive` builder flag is not modelled: characters
are compared exactly, which agrees with the code on the all-lowercase names
and inputs considered here. -/

/-- ASCII whitespace as matched by the regex class `\s`. -/
def wsChar (c : Char) : Bool :=
  c == ' ' || c == '\t' || c == '\n' || c == '\r' || c == '\x0b' || c == '\x0c'

/-- `sort_unstable_by_key(|a| a.len())`: sort the name alternatives by length,
ascending (shorter names first). -/
def sortByLenKey (l : List (List Char)) : List (List Char) :=
  List.insertionSort (fun a b => a.length ≤ b.length) l

instance : IsTotal (List Char) (fun a b => a.length ≤ b.length) :=
  ⟨fun a b => Nat.le_total a.length b.length⟩

instance : IsTrans (List Char) (fun a b => a.length ≤ b.length) :=
  ⟨fun _ _ _ h h' => Nat.le_trans h h'⟩

/-- Match `(?:$|\s+(?P<args>.*))$` against the text after a command name:
succeeds at end of input (result `some none`, no `args` group) or when at
least one whitespace character follows (result `some (some args)` with `args`
the text after the maximal whitespace run, as the greedy `\s+` takes it). -/
def matchTail (rest : List Char) : Option (Option (List Char)) :=
  match rest with
  | [] => some none
  | c :: cs => if wsChar c then some (some (List.dropWhile wsChar (c :: cs))) else none

/-- Match `(?P<cmd>n₁|n₂|…)(?:$|\s+(?P<args>.*))$` against `s` with
leftmost-first alternation semantics: try each name in order; a name whose
tail cannot match is abandoned for the next alternative. -/
def matchCmd (names : List (List Char)) (s : List Char) :
    Option (List Char × Option (List Char)) :=
  match names with
  | [] => none
  | n :: restNames =>
    if n.isPrefixOf s then
      match matchTail (s.drop n.length) with
      | some args => some (n, args)
      | none => matchCmd restNames s
    else
      matchCmd restNames s

/-- First defined element, in order: backtracking preference over a list of
alternatives. -/
def firstSome {α : Type} : List (Option α) → Option α
  | [] => none
  | some a :: _ => some a
  | none :: rest => firstSome rest

/-- Candidate remainders for a literal followed by greedy `\s*`: if the
literal matches, the remainders after dropping the whitespace run, longest
drop first (greedy preference); otherwise no candidate. -/
def litThenWs (lit : List Char) (s : List Char) : List (List Char) :=
  if lit.isPrefixOf s then
    let s' := s.drop lit.length
    let w := (s'.takeWhile wsChar).length
    (List.range (w + 1)).map (fun i => s'.drop (w - i))
  else
    []

/-- Candidate remainders for the lazy prefix `(?P<prefix>\S\x7b1,5\x7d?)`:
for k = 1..5 (shortest first, lazy preference), the remainder after k
non-whitespace characters. -/
def lazyPrefixCandidates (s : List Char) : List (List Char) :=
  (List.range 5).filterMap (fun i =>
    let k := i + 1
    if (s.take k).length == k && (s.take k).all (fun c => !wsChar c) then
      some (s.drop k)
    else
      none)

/-- Candidate remainders after the front alternation
`(?:(?:<@ID>\s*)|(?:<@!ID>\s*)|(?P<prefix>\S\x7b1,5\x7d?))`, in backtracking
preference order. -/
def frontCandidates (id : List Char) (s : List Char) : List (List Char) :=
  litThenWs (('<' :: '@' :: id) ++ ['>']) s
    ++ litThenWs (('<' :: '@' :: '!' :: id) ++ ['>']) s
    ++ lazyPrefixCandidates s

/-- The compiled guild matcher applied to a message: try each front candidate
in preference order, then the command alternation and tail at the remainder;
the first complete match wins.  Returns the captured command name and the
optional `args` capture. -/
def commandMatcher (id : List Char) (names : List (List Char)) (s : List Char) :
    Option (List Char × Option (List Char)) :=
  firstSome ((frontCandidates id s).map (matchCmd names))

/-- The ordering property the spec asserts of the compiled alternation: for
names sharing a prefix, the longer one appears strictly earlier (is tried
first). -/
def longerSharedStemFirst (l : List (List Char)) : Prop :=
  ∀ a b, a ∈ l → b ∈ l → a ≠ b → a.isPrefixOf b → l.indexOf b < l.indexOf a

/-! ### Option-tree normalizer (`CommandOptions::populate`, framework.rs lines 346-447)

`ApplicationCommandInteractionDataOption` nodes carry a name, a declared
kind, an optional JSON value and child options.  Leaf extraction `unwrap`s
the value accessors, so a missing or mistyped payload panics: that is
modelled by the whole walk returning `none`. -/

/-- `ApplicationCommandOptionType` (the serenity enum, including its
`Unknown` catch-all variant, which is what the source's `_ => \x7b\x7d` arm
can receive). -/
inductive OptKind where
  | subCommand
  | subCommandGroup
  | string
  | integer
  | boolean
  | user
  | channel
  | role
  | mentionable
  | number
  | unknown
deriving DecidableEq, Repr

/-- The JSON payload of an option node (`serde_json::Value` restricted to the
shapes the code reads). -/
inductive JsonV where
  | str (s : String)
  | int (i : Int)
  | bool (b : Bool)
  | num (f : Float)
deriving Repr

def JsonV.as_str : JsonV → Option String
  | .str s => some s
  | _ => none

def JsonV.as_i64 : JsonV → Option Int
  | .int i => some i
  | _ => none

def JsonV.as_bool : JsonV → Option Bool
  | .bool b => some b
  | _ => none

def JsonV.as_u64 : JsonV → Option Nat
  | .int i => if 0 ≤ i then some i.toNat else none
  | _ => none

def JsonV.as_f64 : JsonV → Option Float
  | .num f => some f
  | .int i => some (Float.ofInt i)
  | _ => none

/-- `str::parse::<u64>` on a decimal id string. -/
def parseU64 (s : String) : Option Nat :=
  match s.toNat? with
  | some n => if n < 2 ^ 64 then some n else none
  | none => none

/-- `OptionValue` (framework.rs lines 274-284); `User`/`Channel`/`Role` ids
and the `Mentionable` payload are `u64`, embedded as `Nat`. -/
inductive OptionValue where
  | string (s : String)
  | integer (i : Int)
  | boolean (b : Bool)
  | user (id : Nat)
  | channel (id : Nat)
  | role (id : Nat)
  | mentionable (m : Nat)
  | number (n : Float)
deriving Repr

/-- `HashMap::insert`: replace the value at an existing key, else append.
The map is embedded as a key-unique association list. -/
def insertKV (m : List (String × OptionValue)) (k : String) (v : OptionValue) :
    List (String × OptionValue) :=
  match m with
  | [] => [(k, v)]
  | (k', v') :: rest => if k' == k then (k, v) :: rest else (k', v') :: insertKV rest k v

/-- `CommandOptions` (framework.rs lines 322-328). -/
structure CommandOptions where
  command : String
  subcommand : Option String
  subcommand_group : Option String
  options : List (String × OptionValue)
deriving Repr

/-- `CommandOptions::new`: the primary name of the command, no subcommand or
group, empty option map. -/
def CommandOptions.new (primaryName : String) : CommandOptions :=
  { command := primaryName, subcommand := none, subcommand_group := none, options := [] }

/-- `ApplicationCommandInteractionDataOption`: one node of the structured
option tree. -/
inductive DataOption where
  | mk (name : String) (kind : OptKind) (value : Option JsonV) (options : List DataOption)

mutual

/-- `match_option` (framework.rs lines 347-439): a subcommand node records its
name and recurses; a subcommand-group node records its name and recurses;
each recognized leaf kind inserts its extracted payload under the option
name; the `Unknown` kind falls to `_ => \x7b\x7d` and changes nothing.
`none` models a panic from one of the `unwrap`s on a missing/mistyped
payload. -/
def match_option (o : DataOption) (cmd_opts : CommandOptions) : Option CommandOptions :=
  match o with
  | .mk name kind value opts =>
    match kind with
    | .subCommand => match_options opts { cmd_opts with subcommand := some name }
    | .subCommandGroup => match_options opts { cmd_opts with subcommand_group := some name }
    | .string =>
      (value.bind JsonV.as_str).map fun s =>
        { cmd_opts with options := insertKV cmd_opts.options name (.string s) }
    | .integer =>
      (value.bind JsonV.as_i64).map fun i =>
        { cmd_opts with options := insertKV cmd_opts.options name (.integer i) }
    | .boolean =>
      (value.bind JsonV.as_bool).map fun b =>
        { cmd_opts with options := insertKV cmd_opts.options name (.boolean b) }
    | .user =>
      ((value.bind JsonV.as_str).bind parseU64).map fun id =>
        { cmd_opts with options := insertKV cmd_opts.options name (.user id) }
    | .channel =>
      ((value.bind JsonV.as_str).bind parseU64).map fun id =>
        { cmd_opts with options := insertKV cmd_opts.options name (.channel id) }
    | .role =>
      ((value.bind JsonV.as_str).bind parseU64).map fun id =>
        { cmd_opts with options := insertKV cmd_opts.options name (.role id) }
    | .mentionable =>
      (value.bind JsonV.as_u64).map fun m =>
        { cmd_opts with options := insertKV cmd_opts.options name (.mentionable m) }
    | .number =>
      (value.bind JsonV.as_f64).map fun n =>
        { cmd_opts with options := insertKV cmd_opts.options name (.number n) }
    | .unknown => some cmd_opts

/-- The `for opt in option.options` loops inside `match_option`, and the
`for option in &interaction.data.options` loop of `populate`: fold
`match_option` over a node list in order. -/
def match_options (l : List DataOption) (cmd_opts : CommandOptions) : Option CommandOptions :=
  match l with
  | [] => some cmd_opts
  | o :: rest =>
    match match_option o cmd_opts with
    | some c' => match_options rest c'
    | none => none

end

/-- `CommandOptions::populate` applied to the interaction's top-level option
list. -/
def CommandOptions.populate (cmd_opts : CommandOptions) (interactionOptions : List DataOption) :
    Option CommandOptions :=
  match_options interactionOptions cmd_opts

/-! ### Dispatcher (`RegexFramework::execute`, framework.rs lines 723-763, and
`Handler::interaction_create`, main.rs lines 249-272)

Hook bodies are abstracted to the `HookResult` they return, tagged by their
`uuid`; the dispatch is embedded as the list of observable actions it
performs, in order.  The admission-guard state is abstracted here by the
boolean result of `check_executing` (`guardYoung`); its map semantics are
embedded separately below. -/

inductive HookResult where
  | Continue
  | Halt
deriving DecidableEq, Repr

/-- `Hook`: identity plus the result its body returns for this dispatch. -/
structure MHook where
  uuid : Nat
  result : HookResult
deriving DecidableEq, Repr

/-- `Command`: the fields `execute` reads (names, hooks) plus the
`supports_dm` capability flag. -/
structure MCommand where
  names : List String
  supports_dm : Bool
  hooks : List MHook
deriving DecidableEq, Repr

/-- `RegexFramework`: the frozen name→command registry and the globally
registered hooks. -/
structure MFramework where
  commands_map : List (String × MCommand)
  hooks : List MHook
deriving DecidableEq, Repr

/-- `HashMap::get` on the registry. -/
def commandsMapGet (m : List (String × MCommand)) (k : String) : Option MCommand :=
  (m.find? (fun p => p.1 == k)).map (·.2)

/-- Observable steps of one dispatch. -/
inductive DispatchAction where
  | normalize
  | hookRun (uuid : Nat)
  | guardCheck
  | guardSet
  | runBody
  | guardDrop
deriving DecidableEq, Repr

/-- Run a hook list in order; stops at the first `Halt`.  Returns the hooks
actually run (as actions, in order) and whether a halt occurred. -/
def runHooks (hs : List MHook) : List DispatchAction × Bool :=
  match hs with
  | [] => ([], false)
  | h :: rest =>
    match h.result with
    | .Halt => ([.hookRun h.uuid], true)
    | .Continue =>
      let (t, b) := runHooks rest
      (.hookRun h.uuid :: t, b)

/-- `RegexFramework::execute`: look the command up by the interaction's data
name (`expect` panics with the shown message when absent — `Except.error`);
normalize the options; run the command's own hooks then the global hooks,
returning immediately on the first `Halt`; otherwise consult the admission
guard (`guardYoung` is `check_executing`'s result) and, when admitted, set
the record, run the command body and drop the record. -/
def execute (fw : MFramework) (interactionDataName : String) (guardYoung : Bool) :
    Except String (List DispatchAction) :=
  match commandsMapGet fw.commands_map interactionDataName with
  | none => .error ("Received invalid command: " ++ interactionDataName)
  | some cmd =>
    let (htrace, halted) := runHooks (cmd.hooks ++ fw.hooks)
    if halted then
      .ok (.normalize :: htrace)
    else
      .ok (.normalize :: htrace
        ++ [.guardCheck]
        ++ (if guardYoung then [] else [.guardSet, .runBody, .guardDrop]))

/-- An inbound interaction as `Handler::interaction_create` matches on it. -/
inductive MInteraction where
  | applicationCommand (guild_id : Option Nat) (dataName : String)
  | messageComponent (custom_id : String)
  | other
deriving DecidableEq, Repr

/-- `Handler::interaction_create` (main.rs lines 249-272): an application
command with no guild id returns immediately — before the framework is even
fetched — so an empty action list; otherwise the dispatcher runs.  Component
interactions are routed to `ComponentDataModel::act`, outside this model, so
they contribute no dispatcher actions here. -/
def interaction_create (fw : MFramework) (i : MInteraction) (guardYoung : Bool) :
    Except String (List DispatchAction) :=
  match i with
  | .applicationCommand guild_id dataName =>
    match guild_id with
    | none => .ok []
    | some _ => execute fw dataName guardYoung
  | .messageComponent _ => .ok []
  | .other => .ok []

/-! ### Admission guard (`LimitExecutors for Context`, main.rs lines 89-117,
used by `execute`, framework.rs lines 751-762)

The shared `CurrentlyExecuting` map sends a user id to the `Instant` recorded
by `set_executing`; time is embedded as seconds (`Nat`), `elapsed` as
truncated subtraction.  The guarded section of `execute` is embedded as a
four-step thread — check, set, body, drop — so that dispatches for the same
actor can interleave; a scheduler supplies which thread steps next and the
clock reading at that step. -/

def alistGet (m : List (Nat × Nat)) (k : Nat) : Option Nat :=
  (m.find? (fun p => p.1 == k)).map (·.2)

def alistInsert (m : List (Nat × Nat)) (k v : Nat) : List (Nat × Nat) :=
  match m with
  | [] => [(k, v)]
  | (k', v') :: rest => if k' == k then (k, v) :: rest else (k', v') :: alistInsert rest k v

def alistRemove (m : List (Nat × Nat)) (k : Nat) : List (Nat × Nat) :=
  m.filter (fun p => p.1 != k)

/-- `check_executing`: a record for the user exists and is younger than the
4-second debounce window (`now.elapsed().as_secs() < 4`). -/
def check_executing (m : List (Nat × Nat)) (user : Nat) (now : Nat) : Bool :=
  match alistGet m user with
  | some t => decide (now - t < 4)
  | none => false

/-- `set_executing`: record `Instant::now()` for the user. -/
def set_executing (m : List (Nat × Nat)) (user : Nat) (now : Nat) : List (Nat × Nat) :=
  alistInsert m user now

/-- `drop_executing`: remove the user's record, whoever inserted it. -/
def drop_executing (m : List (Nat × Nat)) (user : Nat) : List (Nat × Nat) :=
  alistRemove m user

/-- Program counter of one dispatch's guarded section:
`start` = about to call `check_executing`; `beforeSet` = check returned
false, about to call `set_executing`; `inBody` = record set, command body
running; `beforeDrop` = body finished, about to call `drop_executing`;
`done ran` = dispatch over, `ran` says whether the body executed. -/
inductive GuardPC where
  | start
  | beforeSet
  | inBody
  | beforeDrop
  | done (ran : Bool)
deriving DecidableEq, Repr

structure GuardThread where
  user : Nat
  pc : GuardPC
deriving DecidableEq, Repr

structure GuardConfig where
  map : List (Nat × Nat)
  threads : List GuardThread
deriving DecidableEq, Repr

/-- One scheduler step: thread `i` advances once at clock reading `now`.
`check_executing` and `set_executing` are separate steps, as in the source
(two separate lock acquisitions); the body is one step whose completion time
the scheduler chooses.  A dropped dispatch (`check` true) goes straight to
`done false`: no map write, no body, no response of any kind. -/
def stepThread (cfg : GuardConfig) (i : Nat) (now : Nat) : GuardConfig :=
  match cfg.threads.get? i with
  | none => cfg
  | some th =>
    match th.pc with
    | .start =>
      if check_executing cfg.map th.user now then
        { cfg with threads := cfg.threads.set i { th with pc := .done false } }
      else
        { cfg with threads := cfg.threads.set i { th with pc := .beforeSet } }
    | .beforeSet =>
      { map := set_executing cfg.map th.user now,
        threads := cfg.threads.set i { th with pc := .inBody } }
    | .inBody =>
      { cfg with threads := cfg.threads.set i { th with pc := .beforeDrop } }
    | .beforeDrop =>
      { map := drop_executing cfg.map th.user,
        threads := cfg.threads.set i { th with pc := .done true } }
    | .done _ => cfg

/-- Run a schedule: a list of (thread index, clock reading) pairs. -/
def runSched (cfg : GuardConfig) (sched : List (Nat × Nat)) : GuardConfig :=
  sched.foldl (fun c p => stepThread c p.1 p.2) cfg

/-! ## Theorems -/

/-- C4: on a slash-trigger handle with every platform call succeeding, the
sequence [respond] performs exactly one create-initial-response call and no
edit or follow-up; [defer, respond] performs zero create-initial-response
calls (only the deferred acknowledgement) and exactly one
edit-initial-response call; [respond, respond] performs one
create-initial-response call followed by one create-followup call; and the
handle ends with `already_responded` set (state Responded) in all three
cases. -/
theorem c4_slash_respond_sequences :
    runOps freshSlash [.respondOp]
      = ({ model := .slash, already_responded := true, deferred := false },
         [.createInteractionResponse .channelMessageWithSource])
    ∧ runOps freshSlash [.deferOp, .respondOp]
      = ({ model := .slash, already_responded := true, deferred := true },
         [.createInteractionResponse .deferredChannelMessageWithSource,
          .editOriginalResponse])
    ∧ runOps freshSlash [.respondOp, .respondOp]
      = ({ model := .slash, already_responded := true, deferred := false },
         [.createInteractionResponse .channelMessageWithSource,
          .createFollowupMessage]) := by
  decide

/-- C5 counterexample: after a successful `respond` from Fresh the slash
handle is in state Responded with `deferred` still false, and `defer` on that
handle is not a no-op: it emits a (nonempty) platform call — the deferred
acknowledgement — and changes the state, because the source guards `defer`
only by `if !self.deferred`. -/
theorem c5_defer_after_respond_not_noop :
    (freshSlash.respond true).state
      = { model := .slash, already_responded := true, deferred := false }
    ∧ CommandInvoke.defer
        { model := .slash, already_responded := true, deferred := false } true
      = .ok { model := .slash, already_responded := true, deferred := true }
          [.createInteractionResponse .deferredChannelMessageWithSource]
    ∧ ([PlatformCall.createInteractionResponse .deferredChannelMessageWithSource] : List PlatformCall)
      ≠ [] := by
  decide

/-- C5 amended: `defer` is a no-op exactly when the `deferred` flag is
already set; from every handle whose `deferred` flag is unset — Fresh, but
also Responded-without-deferral — it sends the placeholder acknowledgement
and (on success) sets `deferred`. -/
theorem c5_defer_noop_iff_deferred (inv : CommandInvoke) (success : Bool) :
    (inv.deferred = true → inv.defer success = .ok inv [])
    ∧ (inv.deferred = false →
        inv.defer success =
          if success then
            DeferOutcome.ok { inv with deferred := true }
              [.createInteractionResponse .deferredChannelMessageWithSource]
          else
            DeferOutcome.panicked
              [.createInteractionResponse .deferredChannelMessageWithSource]) := by
  constructor
  · intro h
    simp [CommandInvoke.defer, h]
  · intro h
    simp [CommandInvoke.defer, h]

/-- C5 witness: the amended statement evaluated on an already-deferred handle
(no call, state unchanged) and on a responded-but-not-deferred handle (the
acknowledgement is sent, `deferred` becomes set). -/
theorem c5_defer_noop_iff_deferred_witness :
    CommandInvoke.defer
        { model := .slash, already_responded := false, deferred := true } true
      = .ok { model := .slash, already_responded := false, deferred := true } []
    ∧ CommandInvoke.defer
        { model := .slash, already_responded := true, deferred := false } true
      = .ok { model := .slash, already_responded := true, deferred := true }
          [.createInteractionResponse .deferredChannelMessageWithSource] := by
  refine ⟨(c5_defer_noop_iff_deferred
      { model := .slash, already_responded := false, deferred := true } true).1 rfl, ?_⟩
  have h := (c5_defer_noop_iff_deferred
      { model := .slash, already_responded := true, deferred := false } true).2 rfl
  simpa using h

/-- C6 counterexample: when the underlying platform call of `defer` fails on
a fresh slash handle, the source `unwrap`s the failed result — the dispatch
panics instead of returning the transport failure to the caller. -/
theorem c6_defer_failure_panics :
    freshSlash.defer false
      = .panicked [.createInteractionResponse .deferredChannelMessageWithSource] := by
  decide

/-- C6 amended: `respond` behaves as claimed — a failed call returns the
error to the caller with the handle state exactly as before, and the
`already_responded` flag is set only on confirmed success — but `defer`
`unwrap`s a failed call and panics (before setting `deferred`) instead of
returning the failure. -/
theorem c6_respond_error_returned_defer_panics (inv : CommandInvoke) :
    inv.respond false = { result := .err, state := inv, calls := [inv.respondCall] }
    ∧ (inv.respond true).state = { inv with already_responded := true }
    ∧ (inv.deferred = false →
        inv.defer false
          = .panicked [.createInteractionResponse .deferredChannelMessageWithSource]) := by
  refine ⟨?_, ?_, ?_⟩
  · simp [CommandInvoke.respond]
  · simp [CommandInvoke.respond]
  · intro h
    simp [CommandInvoke.defer, h]

/-- C6 witness: the amended statement evaluated on a fresh slash handle. -/
theorem c6_respond_error_returned_defer_panics_witness :
    freshSlash.respond false
      = { result := .err, state := freshSlash,
          calls := [.createInteractionResponse .channelMessageWithSource] }
    ∧ freshSlash.defer false
      = .panicked [.createInteractionResponse .deferredChannelMessageWithSource] := by
  refine ⟨?_, (c6_respond_error_returned_defer_panics freshSlash).2.2 rfl⟩
  have h := (c6_respond_error_returned_defer_panics freshSlash).1
  simpa using h

/-- C7 counterexample: a component handle does not follow the slash
transition table — with `already_responded` set (state Responded), `respond`
emits an `UpdateMessage` initial interaction response, not a follow-up call,
and with `deferred` set it emits the same, not an edit of the placeholder. -/
theorem c7_component_respond_ignores_state :
    (CommandInvoke.respond
        { model := .component, already_responded := true, deferred := false } true).calls
      = [.createInteractionResponse .updateMessage]
    ∧ (CommandInvoke.respond
        { model := .component, already_responded := false, deferred := true } true).calls
      = [.createInteractionResponse .updateMessage]
    ∧ ([PlatformCall.createInteractionResponse .updateMessage] : List PlatformCall)
      ≠ [.createFollowupMessage]
    ∧ ([PlatformCall.createInteractionResponse .updateMessage] : List PlatformCall)
      ≠ [.editOriginalResponse] := by
  decide

/-- C7 amended: the component handle shares the flags, the success/failure
propagation and the `defer` behaviour of the slash variant, but its `respond`
ignores the `deferred`/`already_responded` flags entirely and always issues a
single `UpdateMessage` interaction-response call. -/
theorem c7_component_respond_always_update_message (a d success : Bool) :
    (CommandInvoke.respond
        { model := .component, already_responded := a, deferred := d } success).calls
      = [.createInteractionResponse .updateMessage]
    ∧ deferFlags (CommandInvoke.defer
        { model := .component, already_responded := a, deferred := d } success)
      = deferFlags (CommandInvoke.defer
        { model := .slash, already_responded := a, deferred := d } success)
    ∧ (CommandInvoke.respond
        { model := .component, already_responded := a, deferred := d } success).result
      = (CommandInvoke.respond
        { model := .slash, already_responded := a, deferred := d } success).result := by
  cases a <;> cases d <;> cases success <;> decide

/-- C9: a structured trigger whose command name is absent from the frozen
registry makes `execute` abort via `expect` with a message naming the unknown
command, before any normalization, hook, or admission-guard action is
performed (the result is the error, not an `ok` trace). -/
theorem c9_unknown_command_aborts (fw : MFramework) (name : String) (guardYoung : Bool)
    (h : commandsMapGet fw.commands_map name = none) :
    execute fw name guardYoung = .error ("Received invalid command: " ++ name) := by
  simp [execute, h]

/-- C9 witness: an empty registry with the command name "remind". -/
theorem c9_unknown_command_aborts_witness :
    execute { commands_map := [], hooks := [] } "remind" false
      = .error "Received invalid command: remind" := by
  have h := c9_unknown_command_aborts { commands_map := [], hooks := [] } "remind" false rfl
  simpa using h

/-- C10: a structured application-command interaction with no guild id is
discarded by `Handler::interaction_create` before the dispatcher runs — the
action trace is empty (no hook, no admission-guard interaction, no command
body, no response), for every registry and hence regardless of any command's
`supports_dm` flag. -/
theorem c10_guildless_interaction_discarded (fw : MFramework) (name : String)
    (guardYoung : Bool) :
    interaction_create fw (.applicationCommand none name) guardYoung = .ok [] := rfl

/-- Running a hook list whose first `Halt` sits after a run of `Continue`s:
the continues run once each in order, the halting hook runs, and nothing
after it does. -/
theorem runHooks_first_halt (pre : List MHook) (hk : MHook) (post : List MHook)
    (hpre : ∀ h ∈ pre, h.result = .Continue) (hhk : hk.result = .Halt) :
    runHooks (pre ++ hk :: post)
      = (pre.map (fun h => DispatchAction.hookRun h.uuid) ++ [.hookRun hk.uuid], true) := by
  induction pre with
  | nil => simp [runHooks, hhk]
  | cons h t ih =>
    have hh : h.result = .Continue := hpre h (List.mem_cons_self h t)
    have ht : ∀ h' ∈ t, h'.result = .Continue := fun h' hm => hpre h' (List.mem_cons_of_mem h hm)
    simp [runHooks, hh, ih ht]

/-- C3: when hook k (of the command's own hooks followed by the global hooks,
in registration order) is the first to return Halt, the dispatch trace is
exactly the normalization step, hooks 1..k-1 once each in order, and hook k —
hooks k+1..n never run, the command body never runs, and no admission-guard
action (check, set or drop) occurs. -/
theorem c3_first_halt_aborts_dispatch (fw : MFramework) (name : String) (cmd : MCommand)
    (guardYoung : Bool) (pre : List MHook) (hk : MHook) (post : List MHook)
    (hcmd : commandsMapGet fw.commands_map name = some cmd)
    (hsplit : cmd.hooks ++ fw.hooks = pre ++ hk :: post)
    (hpre : ∀ h ∈ pre, h.result = .Continue)
    (hhk : hk.result = .Halt) :
    execute fw name guardYoung
      = .ok (.normalize ::
          (pre.map (fun h => DispatchAction.hookRun h.uuid) ++ [.hookRun hk.uuid])) := by
  simp [execute, hcmd, hsplit, runHooks_first_halt pre hk post hpre hhk]

/-- C3 witness: a registry with one command owning hooks 1 (Continue) and
2 (Halt) and one further command hook 3 plus a global hook 4; the trace is
normalization, hook 1, hook 2 and nothing else. -/
theorem c3_first_halt_aborts_dispatch_witness :
    execute
      { commands_map :=
          [("remind",
            { names := ["remind"], supports_dm := false,
              hooks := [⟨1, .Continue⟩, ⟨2, .Halt⟩, ⟨3, .Continue⟩] })],
        hooks := [⟨4, .Continue⟩] }
      "remind" false
      = .ok [.normalize, .hookRun 1, .hookRun 2] := by
  have h := c3_first_halt_aborts_dispatch
    { commands_map :=
        [("remind",
          { names := ["remind"], supports_dm := false,
            hooks := [⟨1, .Continue⟩, ⟨2, .Halt⟩, ⟨3, .Continue⟩] })],
      hooks := [⟨4, .Continue⟩] }
    "remind"
    { names := ["remind"], supports_dm := false,
      hooks := [⟨1, .Continue⟩, ⟨2, .Halt⟩, ⟨3, .Continue⟩] }
    false
    [⟨1, .Continue⟩] ⟨2, .Halt⟩ [⟨3, .Continue⟩, ⟨4, .Continue⟩]
    rfl rfl (by decide) rfl
  simpa using h

/-- C8: the option-tree normalizer records the traversed subcommand-group and
subcommand names, extracts each recognized leaf under its option name with
the payload of its declared kind — the spec's example tree
(group g → subcommand s → leaves k1: String "x", k2: Integer 5) yields
exactly those fields — and silently omits any node of unrecognized kind
without failing. -/
theorem c8_normalizer_round_trip (primaryName : String) :
    CommandOptions.populate (CommandOptions.new primaryName)
        [.mk "g" .subCommandGroup none
          [.mk "s" .subCommand none
            [.mk "k1" .string (some (.str "x")) [],
             .mk "k2" .integer (some (.int 5)) []]]]
      = some { command := primaryName, subcommand := some "s", subcommand_group := some "g",
               options := [("k1", .string "x"), ("k2", .integer 5)] }
    ∧ ∀ (name : String) (value : Option JsonV) (children : List DataOption)
        (c : CommandOptions),
        match_option (.mk name .unknown value children) c = some c := by
  exact ⟨rfl, fun name value children c => rfl⟩

/-- C2: one conjunction of the claim's three parts, over the interleaved
guarded section of `execute`.
First, a dispatch whose admission check finds a record younger than the
4-second window goes straight to `done false`: the command body never runs
and the dispatch performs nothing at all (the map — and everything else in
the configuration — is untouched; no response, error or queue entry exists
in the model).
Second, on command-body completion the record for the dispatch's actor is
removed unconditionally — `drop_executing` erases whatever record the map
holds for that actor, regardless of which dispatch inserted it.
Third, the claim's scenario: dispatches A (index 0), B (index 1) and C
(index 2) for the same actor; A is admitted at t1; B starts at t2, before A
completes and within the window (t2 - t1 < 4), and is dropped; A's body
completes and A drops the record; C starts at t5 after A completed — even
inside the original window (t5 - t1 < 4) — and runs normally.  Exactly one
of A, B runs a command body, and C runs one. -/
theorem c2_admission_guard_debounce :
    (∀ (cfg : GuardConfig) (i now : Nat) (th : GuardThread),
        cfg.threads.get? i = some th → th.pc = .start →
        check_executing cfg.map th.user now = true →
        stepThread cfg i now
          = { cfg with threads := cfg.threads.set i { th with pc := .done false } })
    ∧ (∀ (cfg : GuardConfig) (i now : Nat) (th : GuardThread),
        cfg.threads.get? i = some th → th.pc = .beforeDrop →
        stepThread cfg i now
          = { map := drop_executing cfg.map th.user,
              threads := cfg.threads.set i { th with pc := .done true } })
    ∧ (∀ u t1 t2 t3 t5 t6 : Nat, t2 - t1 < 4 → t5 - t1 < 4 →
        runSched { map := [], threads := [⟨u, .start⟩, ⟨u, .start⟩, ⟨u, .start⟩] }
            [(0, t1), (0, t1), (1, t2), (0, t3), (0, t3),
             (2, t5), (2, t5), (2, t6), (2, t6)]
          = { map := [],
              threads := [⟨u, .done true⟩, ⟨u, .done false⟩, ⟨u, .done true⟩] }) := by
  refine ⟨?_, ?_, ?_⟩
  · intro cfg i now th h1 h2 h3
    rw [List.get?_eq_getElem?] at h1
    simp [stepThread, h1, h2, h3]
  · intro cfg i now th h1 h2
    rw [List.get?_eq_getElem?] at h1
    simp [stepThread, h1, h2]
  · intro u t1 t2 t3 t5 t6 ht2 ht5
    simp [runSched, stepThread, check_executing, alistGet, set_executing, alistInsert,
      drop_executing, alistRemove, ht2, ht5]

/-- C2 witness: the three parts evaluated at actor 7 with times
t1 = 100, t2 = 101, t3 = 102, t5 = 103, t6 = 104. -/
theorem c2_admission_guard_debounce_witness :
    stepThread { map := [(7, 100)], threads := [⟨7, .start⟩] } 0 101
      = { map := [(7, 100)], threads := [⟨7, .done false⟩] }
    ∧ stepThread { map := [(7, 100)], threads := [⟨7, .beforeDrop⟩] } 0 102
      = { map := [], threads := [⟨7, .done true⟩] }
    ∧ runSched { map := [], threads := [⟨7, .start⟩, ⟨7, .start⟩, ⟨7, .start⟩] }
        [(0, 100), (0, 100), (1, 101), (0, 102), (0, 102),
         (2, 103), (2, 103), (2, 104), (2, 104)]
      = { map := [],
          threads := [⟨7, .done true⟩, ⟨7, .done false⟩, ⟨7, .done true⟩] } := by
  refine ⟨?_, ?_, ?_⟩
  · have h := c2_admission_guard_debounce.1
      { map := [(7, 100)], threads := [⟨7, .start⟩] } 0 101 ⟨7, .start⟩ rfl rfl (by decide)
    simpa using h
  · have h := c2_admission_guard_debounce.2.1
      { map := [(7, 100)], threads := [⟨7, .beforeDrop⟩] } 0 102 ⟨7, .beforeDrop⟩ rfl rfl
    simpa [drop_executing, alistRemove] using h
  · exact c2_admission_guard_debounce.2.2 7 100 101 102 103 104 (by decide) (by decide)

/-- Core matching lemma for the compiled alternation: in a
length-ascending-sorted alternation containing the whitespace-free name
`n2`, an input consisting of `n2` followed by a matching tail resolves to
`n2` with that tail's args.  Every alternative tried earlier either is not a
prefix of the input at all, or is a proper prefix of `n2` — and then the
text after it starts with a non-whitespace character of `n2`, so its
`(?:$|\s+…)` tail fails and the engine moves on. -/
theorem matchCmd_sorted_longest (l : List (List Char)) (n2 rest : List Char)
    (args : Option (List Char))
    (hsorted : List.Sorted (fun a b => a.length ≤ b.length) l)
    (hmem : n2 ∈ l)
    (hnws : ∀ c ∈ n2, wsChar c = false)
    (htail : matchTail rest = some args) :
    matchCmd l (n2 ++ rest) = some (n2, args) := by
  induction l with
  | nil => cases hmem
  | cons m t ih =>
    rw [List.sorted_cons] at hsorted
    obtain ⟨hm, hst⟩ := hsorted
    by_cases he : m = n2
    · subst he
      have hp : m.isPrefixOf (m ++ rest) = true :=
        List.isPrefixOf_iff_prefix.mpr (List.prefix_append m rest)
      simp [matchCmd, hp, List.drop_left, htail]
    · have hmem' : n2 ∈ t := by
        rcases List.mem_cons.mp hmem with h | h
        · exact absurd h.symm he
        · exact h
      by_cases hp : m.isPrefixOf (n2 ++ rest) = true
      · have hpre : m <+: n2 ++ rest := List.isPrefixOf_iff_prefix.mp hp
        have hlen : m.length ≤ n2.length := hm n2 hmem'
        have hpn2 : m <+: n2 :=
          List.prefix_of_prefix_length_le hpre (List.prefix_append n2 rest) hlen
        have hlt : m.length < n2.length :=
          lt_of_le_of_ne hlen (fun hEq => he (hpn2.eq_of_length hEq))
        have hdrop : (n2 ++ rest).drop m.length = n2.drop m.length ++ rest := by
          rw [List.drop_append_eq_append_drop, Nat.sub_eq_zero_of_le hlen, List.drop_zero]
        have hne : n2.drop m.length ≠ [] := by
          intro h0
          have hl := congrArg List.length h0
          simp [List.length_drop] at hl
          omega
        obtain ⟨c, cs, hcons⟩ := List.exists_cons_of_ne_nil hne
        have hcmem : c ∈ n2 := List.mem_of_mem_drop (hcons ▸ List.mem_cons_self c cs)
        have hcw : wsChar c = false := hnws c hcmem
        have htf : matchTail ((n2 ++ rest).drop m.length) = none := by
          rw [hdrop, hcons]
          simp [matchTail, hcw]
        simp only [matchCmd, hp, if_true, htf]
        exact ih hst hmem'
      · simp only [matchCmd, hp, if_false]
        have hp' : m.isPrefixOf (n2 ++ rest) = false := by
          cases hx : m.isPrefixOf (n2 ++ rest)
          · rfl
          · exact absurd hx hp
        simp only [hp', Bool.false_eq_true, if_false]
        exact ih hst hmem'

/-- C1 counterexample: `build` sorts the name alternatives with
`sort_unstable_by_key(|a| a.len())`, ascending — so for the registered names
"r" and "remind" (in either registration order) the compiled alternation
lists the shorter "r" strictly before "remind", refuting the claimed
longer-before-shorter ordering. -/
theorem c1_alternation_not_longest_first :
    ¬ longerSharedStemFirst (sortByLenKey ["r".toList, "remind".toList])
    ∧ ¬ longerSharedStemFirst (sortByLenKey ["remind".toList, "r".toList]) := by
  constructor
  · intro h
    have hx := h "r".toList "remind".toList (by decide) (by decide) (by decide) (by decide)
    exact absurd hx (by decide)
  · intro h
    have hx := h "r".toList "remind".toList (by decide) (by decide) (by decide) (by decide)
    exact absurd hx (by decide)

/-- C1 amended: the alternation is sorted shortest-first, yet the claimed
observable behaviour holds anyway, because each alternative must be followed
by end-of-input or whitespace: for every whitespace-free registered name
`n2`, an input whose command token is `n2` matches `n2` with the remainder
as args — a shorter registered prefix of it never matches with the leftover
characters prepended to args.  In particular the compiled guild matcher sends
"$remind foo" (names "r", "remind") to command "remind" with args "foo". -/
theorem c1_longer_name_still_matches :
    (∀ (names : List (List Char)) (n2 rest : List Char) (args : Option (List Char)),
        n2 ∈ names → (∀ c ∈ n2, wsChar c = false) → matchTail rest = some args →
        matchCmd (sortByLenKey names) (n2 ++ rest) = some (n2, args))
    ∧ commandMatcher "0".toList (sortByLenKey ["r".toList, "remind".toList])
        "$remind foo".toList
      = some ("remind".toList, some "foo".toList) := by
  constructor
  · intro names n2 rest args hmem hnws htail
    have hsorted : List.Sorted (fun a b : List Char => a.length ≤ b.length)
        (sortByLenKey names) :=
      List.sorted_insertionSort (fun a b : List Char => a.length ≤ b.length) names
    have hmem' : n2 ∈ sortByLenKey names :=
      ((List.perm_insertionSort (fun a b : List Char => a.length ≤ b.length) names).mem_iff).mpr
        hmem
    exact matchCmd_sorted_longest _ n2 rest args hsorted hmem' hnws htail
  · rfl

/-- C1 witness: the general part applied to the names "r", "remind" and the
input "remind foo". -/
theorem c1_longer_name_still_matches_witness :
    matchCmd (sortByLenKey ["r".toList, "remind".toList])
        ("remind".toList ++ " foo".toList)
      = some ("remind".toList, some "foo".toList) :=
  c1_longer_name_still_matches.1 ["r".toList, "remind".toList] "remind".toList
    " foo".toList (some "foo".toList) (by decide) (by decide) (by decide)

end Reminder
